import Mathlib

/-!
Shallow embedding of `src/liveBook.js` (an interactive narrative engine built
from a `Character` arc tracker and a `LiveBook` act/chapter state machine),
together with proofs about its state machine, choice menu, history log and
epilogue generation.

JavaScript strings are modelled as `List Char`; JavaScript property access on
`undefined` (a thrown `TypeError`) is modelled by `Option`, with `none`
standing for a throw.  `Math.floor(Math.random() * list.length)` is an
arbitrary index below `list.length`, modelled by an adversarially chosen
natural number taken modulo the list length.
-/

set_option linter.unusedVariables false
set_option maxRecDepth 8000

abbrev Str := List Char

def str (s : String) : Str := s.data

/-- The apostrophe character, kept out of string literals. -/
def apos : Str := [Char.ofNat 39]

/-- JavaScript `String.prototype.toLowerCase` (ASCII fragment). -/
def lowerStr (s : Str) : Str := s.map Char.toLower

/-- JavaScript `String.prototype.startsWith`: `leadsWith p s` is true iff `p`
leads the string `s`. -/
def leadsWith : Str → Str → Bool
  | [], _ => true
  | _ :: _, [] => false
  | c :: cs, d :: ds => c == d && leadsWith cs ds

/-- Executable substring test: some rotation of `small` heads a suffix of `big`. -/
def containsB (big small : Str) : Bool :=
  (List.range (big.length + 1)).any (fun i => leadsWith small (big.drop i))

/-- `small` occurs contiguously inside `big`. -/
def ContainsStr (big small : Str) : Prop := ∃ p q, big = p ++ small ++ q

/-- JavaScript `Array.prototype.join(sep)`. -/
def joinSep (sep : Str) : List Str → Str
  | [] => []
  | [x] => x
  | x :: y :: rest => x ++ sep ++ joinSep sep (y :: rest)

/-- JavaScript `String.prototype.split` on a single-character separator. -/
def splitOnCharAux (sep : Char) : Str → Str → List Str
  | [], acc => [acc.reverse]
  | c :: rest, acc =>
    if c == sep then acc.reverse :: splitOnCharAux sep rest []
    else splitOnCharAux sep rest (c :: acc)

def splitOnChar (sep : Char) (s : Str) : List Str := splitOnCharAux sep s []

/-- JavaScript `Array.prototype.map` with a callback whose body may throw:
`none` as soon as one element throws. -/
def mapOpt (f : α → Option β) : List α → Option (List β)
  | [] => some []
  | x :: xs =>
    match f x, mapOpt f xs with
    | some y, some ys => some (y :: ys)
    | _, _ => none

/-- Characters kept by the regex `[^a-z0-9]` in `slugify`. -/
def isSlugChar (c : Char) : Bool :=
  (('a' ≤ c) && (c ≤ 'z')) || (('0' ≤ c) && (c ≤ '9'))

/-- Replace every character outside `[a-z0-9]` by a dash. -/
def dashify (s : Str) : Str := s.map (fun c => if isSlugChar c then c else '-')

/-- Collapse runs of dashes to a single dash, as the regex `[^a-z0-9]+`
replaces each maximal run by one dash. -/
def collapseDashes : Str → Str
  | [] => []
  | [c] => [c]
  | c :: d :: rest =>
    if c == '-' && d == '-' then collapseDashes (d :: rest)
    else c :: collapseDashes (d :: rest)

/-- Drop a single leading dash (the regex `(^-|-$)` removes one occurrence at
each end; after collapsing there are no runs left). -/
def dropLeadDash : Str → Str
  | [] => []
  | c :: rest => if c == '-' then rest else c :: rest

/-- `slugify` from `src/liveBook.js`: lower-case, replace runs of
non-alphanumerics by `-`, trim a leading and a trailing dash. -/
def slugify (s : Str) : Str :=
  (dropLeadDash ((dropLeadDash (collapseDashes (dashify (lowerStr s)))).reverse)).reverse

/-- `list[Math.floor(Math.random() * list.length)]`, the random index being an
arbitrary natural `r` reduced modulo the length; `none` models `undefined` on
an empty list. -/
def randomChoice (l : List α) (r : Nat) : Option α := l[r % l.length]?

structure Stage where
  title : Str
  summary : Str
deriving DecidableEq

structure Act where
  name : Str
  tone : Str
deriving DecidableEq

/-- The `ACTS` constant of `src/liveBook.js`. -/
def ACTS : List Act :=
  [ { name := str ("Setup"), tone := str ("curiosity and fragile optimism") },
    { name := str ("Confrontation"), tone := str ("surging tension and difficult choices") },
    { name := str ("Resolution"), tone := str ("reckoning and courageous synthesis") } ]

structure CharacterConfig where
  name : Str
  role : Str
  desire : Str
  fear : Str
  secret : Str
  arc : List Stage
deriving DecidableEq

structure Character where
  name : Str
  role : Str
  desire : Str
  fear : Str
  secret : Str
  arc : List Stage
  stageIndex : Nat
  id : Str
deriving DecidableEq

/-- The `Character` constructor. -/
def Character.make (config : CharacterConfig) : Character :=
  { name := config.name, role := config.role, desire := config.desire,
    fear := config.fear, secret := config.secret, arc := config.arc,
    stageIndex := 0, id := slugify config.name }

/-- `get currentStage() { return this.arc[this.stageIndex]; }` — `none` models
`undefined` for an out-of-bounds index. -/
def Character.currentStage (c : Character) : Option Stage := c.arc[c.stageIndex]?

/-- `advanceArc()`: the new character state together with the returned boolean. -/
def Character.advanceArc (c : Character) : Character × Bool :=
  if c.stageIndex < c.arc.length - 1 then
    ({ c with stageIndex := c.stageIndex + 1 }, true)
  else (c, false)

structure Choice where
  id : Str
  label : Str
deriving DecidableEq

structure Entry where
  act : Nat
  actName : Str
  chapter : Nat
  choice : Str
  text : Str
deriving DecidableEq

structure BookConfig where
  title : Str
  theme : Str
  setting : Str
  mood : Str
  maxChaptersPerAct : Option Nat
  characters : List CharacterConfig
deriving DecidableEq

structure LiveBook where
  title : Str
  theme : Str
  setting : Str
  mood : Str
  maxChaptersPerAct : Nat
  characters : List Character
  actIndex : Nat
  chapter : Nat
  history : List Entry
  completed : Bool
  epilogue : Str
deriving DecidableEq

/-- The `LiveBook` constructor.  `config.maxChaptersPerAct || 3` falls back to
the default for a falsy value (absent, modelled by `none`, or `0`). -/
def LiveBook.make (config : BookConfig) : LiveBook :=
  { title := config.title, theme := config.theme, setting := config.setting,
    mood := config.mood,
    maxChaptersPerAct :=
      match config.maxChaptersPerAct with
      | none => 3
      | some 0 => 3
      | some m => m,
    characters := config.characters.map Character.make,
    actIndex := 0, chapter := 1, history := [], completed := false,
    epilogue := [] }

/-- `get act() { return ACTS[this.actIndex]; }`. -/
def LiveBook.act (b : LiveBook) : Option Act := ACTS[b.actIndex]?

def LiveBook.isComplete (b : LiveBook) : Bool := b.completed

/-- One character option of `getChoices`; `none` models the throw when
`character.currentStage.title` dereferences `undefined`. -/
def characterOption (c : Character) : Option Choice :=
  (c.arc[c.stageIndex]?).map (fun stage =>
    { id := str ("character:") ++ c.id,
      label := str ("Follow ") ++ c.name ++ str (" as they navigate ")
        ++ lowerStr stage.title ++ str (".") })

def LiveBook.worldOption (b : LiveBook) : Choice :=
  { id := str ("world"),
    label := str ("Listen to the city of ") ++ b.setting ++ str (" reveal a new facet.") }

def LiveBook.twistOption (b : LiveBook) : Choice :=
  { id := str ("twist"),
    label :=
      if b.actIndex < ACTS.length - 1 then
        str ("Complicate the central tension that binds everyone together.")
      else
        str ("Let the consequences of every choice crash together.") }

/-- The ordering used by `getChoices`: the comparator
`(a, b) => a.stageIndex - b.stageIndex`. -/
def stageLE (a c : Character) : Prop := a.stageIndex ≤ c.stageIndex

instance : DecidableRel stageLE := fun a c => (inferInstance : Decidable (a.stageIndex ≤ c.stageIndex))

instance : IsTotal Character stageLE := ⟨fun a c => Nat.le_total a.stageIndex c.stageIndex⟩

instance : IsTrans Character stageLE := ⟨fun _ _ _ h h' => Nat.le_trans h h'⟩

/-- `getChoices()`.  The roster is sorted on a copy (`[...this.characters]`),
with `Array.prototype.sort` — a stable sort, modelled by the stable
`List.insertionSort` — under the comparator `a.stageIndex - b.stageIndex`;
the book state is returned unchanged. -/
def LiveBook.getChoices (b : LiveBook) : Option (LiveBook × List Choice) :=
  if b.completed then some (b, [])
  else
    match mapOpt characterOption ((b.characters.insertionSort stageLE).take 2) with
    | none => none
    | some characterOptions =>
      some (b, (characterOptions ++ [b.worldOption, b.twistOption]).take 4)

/-- `findCharacterByChoice`, as the index of the found character so that the
in-place mutation of the found character can be written back.  The slug is
element 1 of `choiceId.split(':')`; a missing element (`undefined`) matches no
character. -/
def LiveBook.findCharacterByChoice (b : LiveBook) (choiceId : Str) : Option Nat :=
  match (splitOnChar ':' choiceId)[1]? with
  | none => none
  | some slug => b.characters.findIdx? (fun c => c.id == slug)

def sensations : List Str :=
  [ str ("shimmering conduits of light shimmer"),
    str ("wind harps hum in sympathetic resonance"),
    str ("floating gardens pulse with phosphorescent pollen"),
    str ("clockwork gulls sketch elaborate sigils across the clouds") ]

def catalysts : List Str :=
  [ str ("an unexpected breach of protocol"),
    str ("a relic illuminated by auroral fire"),
    str ("a sudden collapse of a light-bridge"),
    str ("a memory thread unspooling in public") ]

def reflections : List Str :=
  [ str ("starlight refracts through crystal rain"),
    str ("choruses of gliders echo between suspended plazas"),
    str ("the chronometers shudder, counting breaths instead of seconds"),
    str ("an auroral tide sketches promises across the horizon") ]

/-- `_generateWorldPassage`: total — interpolating `undefined` into a template
yields the string `undefined` rather than a throw. -/
def LiveBook.generateWorldPassage (b : LiveBook) (act : Act) (r1 r2 : Nat) : List Str :=
  let witnesses := b.characters.map Character.name
  [ str ("The city of ") ++ b.setting ++ str (" exhales through ") ++ act.tone
      ++ str (". Overhead, ") ++ (randomChoice sensations r1).getD (str ("undefined"))
      ++ str (", folding the skyline into fresh geometry."),
    str ("Citizens pause, and even ") ++ (randomChoice witnesses r2).getD (str ("undefined"))
      ++ str (" senses the quiet adjustment. The world itself is annotating the margins of the tale, reminding every traveler that the setting is a collaborator, not a backdrop."),
    str ("The theme of ") ++ lowerStr b.theme
      ++ str (" gains a new verse as the architecture replies to the people") ++ apos
      ++ str ("s heartbeat, inviting the reader to linger within the evolving atlas.") ]

/-- The three twist paragraphs as a function of the two participants. -/
def twistParagraphs (first second : Character) (catalyst : Str) (act : Act)
    (theme : Str) : List Str :=
  [ first.name ++ str (" and ") ++ second.name
      ++ str (" collide beneath a sky trembling with ") ++ act.tone
      ++ str (". Between them hangs ") ++ catalyst
      ++ str (", forcing them to reveal priorities sharpened by the storm season."),
    first.name ++ str (" leans into hard-earned instincts while ") ++ second.name
      ++ str (" weighs the cost of silence. Their choices braid together, tightening the weave of ")
      ++ lowerStr theme ++ str ("."),
    str ("The chapter ends with the city tilting ever so slightly, promising that every heartbeat will be counted when the reckoning arrives.") ]

/-- `_generateTwistPassage`: with an empty roster `first` is `undefined` and
`first.name` throws (`none`); otherwise `second` falls back to `first` when
the filtered cast is empty (`if (!second) second = first`). -/
def LiveBook.generateTwistPassage (b : LiveBook) (act : Act) (r1 r2 r3 : Nat) :
    Option (List Str) :=
  match randomChoice b.characters r1 with
  | none => none
  | some first =>
    some (twistParagraphs first
      ((randomChoice (b.characters.filter (fun c => c.id != first.id)) r2).getD first)
      ((randomChoice catalysts r3).getD (str ("undefined"))) act b.theme)

/-- `_generateCharacterPassage`: captures the stage before, calls
`advanceArc()`, reads the stage after; the paragraph templates dereference
both stages, so a missing stage (empty arc) throws (`none`). -/
def LiveBook.generateCharacterPassage (b : LiveBook) (act : Act) (c : Character)
    (r : Nat) : Option (Character × List Str) :=
  match c.arc[c.stageIndex]?, (c.advanceArc).1.arc[(c.advanceArc).1.stageIndex]? with
  | some beforeStage, some afterStage =>
    some ((c.advanceArc).1,
      [ c.name ++ str (" threads through ") ++ b.setting ++ str (", remembering that ")
          ++ lowerStr beforeStage.summary ++ str (". The air tastes like ") ++ act.tone
          ++ str (", coaxing dormant hopes awake."),
        (if (c.advanceArc).2 then
          c.name ++ str (" steps into ") ++ lowerStr afterStage.title ++ str (", ")
            ++ lowerStr afterStage.summary ++ str (". The choice feels irreversible, yet necessary.")
        else
          c.name ++ str (" circles the cusp of ") ++ lowerStr afterStage.title
            ++ str (", unable to move beyond the gravity of expectation.")),
        str ("Above, ") ++ (randomChoice reflections r).getD (str ("undefined"))
          ++ str (", and the theme of ") ++ lowerStr b.theme
          ++ str (" sharpens. The reader feels the page writing itself, propelled by ")
          ++ c.name ++ apos ++ str ("s evolving arc.") ])
  | _, _ => none

/-- `_advanceStructure`. -/
def LiveBook.advanceStructure (b : LiveBook) : LiveBook :=
  if b.chapter ≥ b.maxChaptersPerAct then
    if b.actIndex ≥ ACTS.length - 1 then { b with completed := true }
    else { b with actIndex := b.actIndex + 1, chapter := 1 }
  else { b with chapter := b.chapter + 1 }

/-- `_generateEpilogue`: one closure sentence per character (dereferencing the
current stage, so an out-of-bounds stage throws), joined by single spaces. -/
def LiveBook.generateEpilogue (b : LiveBook) : Option Str :=
  (mapOpt (fun c => (c.arc[c.stageIndex]?).map (fun stage =>
      c.name ++ str (" resolves within ") ++ stage.title ++ str (", ")
        ++ lowerStr stage.summary ++ str (".")))
    b.characters).map (fun arcClosures =>
      str ("\nEpilogue — The living book settles. ") ++ joinSep (str (" ")) arcClosures
        ++ str (" Together they prove that ") ++ lowerStr b.theme
        ++ str (" can carry a city beyond the storm."))

def sentinelText : Str := str ("The book has already reached its cadence.")

def hesitationText : Str := str ("The narrative hesitates, unsure of the requested path.")

def blankLine : Str := str ("\n\n")

/-- The `switch` on `choice.id` inside `generatePassage`: yields the roster
after the branch (the character branch mutates the found character in place)
together with the produced paragraphs; `none` models a throw. -/
def LiveBook.dispatchBranch (b : LiveBook) (act : Act) (choice : Choice) (r1 r2 r3 : Nat) :
    Option (List Character × List Str) :=
  if choice.id == str ("world") then
    some (b.characters, b.generateWorldPassage act r1 r2)
  else if choice.id == str ("twist") then
    (b.generateTwistPassage act r1 r2 r3).map (fun ps => (b.characters, ps))
  else if leadsWith (str ("character:")) choice.id then
    match b.findCharacterByChoice choice.id with
    | none => none
    | some i =>
      match b.characters[i]? with
      | none => none
      | some c =>
        (b.generateCharacterPassage act c r1).map
          (fun result => (b.characters.set i result.1, result.2))
  else some (b.characters, [hesitationText])

/-- The `record` object built by `generatePassage` before dispatching, with
its `text` already assembled (`paragraphs.join('\n\n')`). -/
def recordEntry (b : LiveBook) (act : Act) (choice : Choice) (paragraphs : List Str) : Entry :=
  { act := b.actIndex + 1, actName := act.name, chapter := b.chapter,
    choice := choice.label, text := joinSep blankLine paragraphs }

/-- The book after `this.history.push(record)` and `this._advanceStructure()`. -/
def LiveBook.afterRecord (b : LiveBook) (act : Act) (choice : Choice)
    (chars : List Character) (paragraphs : List Str) : LiveBook :=
  LiveBook.advanceStructure
    { b with characters := chars,
             history := b.history ++ [recordEntry b act choice paragraphs] }

/-- The tail of `generatePassage`: push the record, run `_advanceStructure`,
and on the completing transition compute and store the epilogue. -/
def LiveBook.postProcess (b : LiveBook) (act : Act) (choice : Choice)
    (chars : List Character) (paragraphs : List Str) : Option (LiveBook × Str) :=
  if (b.afterRecord act choice chars paragraphs).completed then
    ((b.afterRecord act choice chars paragraphs).generateEpilogue).map
      (fun e => ({ b.afterRecord act choice chars paragraphs with epilogue := e },
        joinSep blankLine paragraphs))
  else some (b.afterRecord act choice chars paragraphs, joinSep blankLine paragraphs)

/-- `generatePassage(choice)`: returns the updated book and the returned text;
`none` models a thrown `TypeError`.  Each `Math.random()` draw of the call is
an independent adversarial natural number `r1`, `r2`, `r3`. -/
def LiveBook.generatePassage (b : LiveBook) (choice : Choice) (r1 r2 r3 : Nat) :
    Option (LiveBook × Str) :=
  if b.completed then some (b, sentinelText)
  else
    match ACTS[b.actIndex]? with
    | none => none
    | some act =>
      match b.dispatchBranch act choice r1 r2 r3 with
      | none => none
      | some result => b.postProcess act choice result.1 result.2

structure CallArg where
  choice : Choice
  r1 : Nat
  r2 : Nat
  r3 : Nat
deriving DecidableEq

/-- A sequence of `generatePassage` calls, aborted by the first throw. -/
def runTrace : LiveBook → List CallArg → Option LiveBook
  | b, [] => some b
  | b, a :: rest =>
    match b.generatePassage a.choice a.r1 a.r2 a.r3 with
    | none => none
    | some result => runTrace result.1 rest

/-- Number of calls of a trace that were accepted, i.e. processed while the
book was not yet completed. -/
def acceptedCount : LiveBook → List CallArg → Nat
  | _, [] => 0
  | b, a :: rest =>
    match b.generatePassage a.choice a.r1 a.r2 a.r3 with
    | none => 0
    | some result => (if b.completed then 0 else 1) + acceptedCount result.1 rest

example : slugify (str ("Mira Solace")) = str ("mira-solace") := by decide

example : slugify (str ("  Jo-Anne  ")) = str ("jo-anne") := by decide

/-! ### String lemmas -/

theorem leadsWith_iff (p : Str) : ∀ s : Str, leadsWith p s = true ↔ ∃ q, s = p ++ q := by
  induction p with
  | nil => intro s; simp [leadsWith]
  | cons c cs ih =>
    intro s
    cases s with
    | nil => simp [leadsWith]
    | cons d ds =>
      simp only [leadsWith, Bool.and_eq_true, beq_iff_eq, ih]
      constructor
      · rintro ⟨rfl, q, rfl⟩
        exact ⟨q, rfl⟩
      · rintro ⟨q, hq⟩
        rw [List.cons_append] at hq
        cases hq
        exact ⟨rfl, q, rfl⟩

theorem containsB_iff (big small : Str) : containsB big small = true ↔ ContainsStr big small := by
  unfold containsB ContainsStr
  rw [List.any_eq_true]
  constructor
  · rintro ⟨i, _, hl⟩
    obtain ⟨q, hq⟩ := (leadsWith_iff _ _).mp hl
    refine ⟨big.take i, q, ?_⟩
    conv_lhs => rw [← List.take_append_drop i big]
    rw [hq, List.append_assoc]
  · rintro ⟨p, q, rfl⟩
    refine ⟨p.length, ?_, ?_⟩
    · rw [List.mem_range]
      simp only [List.append_assoc, List.length_append]
      omega
    · rw [List.append_assoc, List.drop_left]
      exact (leadsWith_iff _ _).mpr ⟨q, rfl⟩

theorem containsStr_extend {e p q y a b s : Str} (he : e = p ++ y ++ q)
    (hy : y = a ++ s ++ b) : ContainsStr e s :=
  ⟨p ++ a, b ++ q, by subst he; subst hy; simp [List.append_assoc]⟩

theorem joinSep_mem (sep : Str) : ∀ (l : List Str) (x : Str), x ∈ l →
    ∃ p q, joinSep sep l = p ++ x ++ q := by
  intro l
  induction l with
  | nil => intro x hx; cases hx
  | cons y ys ih =>
    intro x hx
    cases hx with
    | head =>
      cases ys with
      | nil => exact ⟨[], [], by simp [joinSep]⟩
      | cons z zs => exact ⟨[], sep ++ joinSep sep (z :: zs), by simp [joinSep, List.append_assoc]⟩
    | tail _ hmem =>
      cases ys with
      | nil => cases hmem
      | cons z zs =>
        obtain ⟨p, q, hpq⟩ := ih x hmem
        exact ⟨y ++ sep ++ p, q, by simp [joinSep, hpq, List.append_assoc]⟩

theorem joinSep_single (sep x : Str) : joinSep sep [x] = x := rfl

/-! ### mapOpt lemmas -/

theorem mapOpt_some_of_forall {α β : Type} {f : α → Option β} :
    ∀ {l : List α}, (∀ x ∈ l, (f x).isSome) → ∃ ys, mapOpt f l = some ys := by
  intro l
  induction l with
  | nil => intro _; exact ⟨[], rfl⟩
  | cons x xs ih =>
    intro h
    obtain ⟨ys, hys⟩ := ih (fun z hz => h z (List.mem_cons_of_mem _ hz))
    have hx := h x (List.mem_cons_self x xs)
    cases hfx : f x with
    | none => rw [hfx] at hx; cases hx
    | some y => exact ⟨y :: ys, by simp [mapOpt, hfx, hys]⟩

theorem mapOpt_mem {α β : Type} {f : α → Option β} :
    ∀ {l : List α} {ys : List β}, mapOpt f l = some ys →
      ∀ {x : α}, x ∈ l → ∃ y, f x = some y ∧ y ∈ ys := by
  intro l
  induction l with
  | nil => intro ys _ x hx; cases hx
  | cons z zs ih =>
    intro ys h x hx
    unfold mapOpt at h
    cases hfz : f z with
    | none => rw [hfz] at h; cases h
    | some y0 =>
      rw [hfz] at h
      cases hrest : mapOpt f zs with
      | none => rw [hrest] at h; cases h
      | some ys0 =>
        rw [hrest] at h
        cases h
        cases hx with
        | head => exact ⟨y0, hfz, List.mem_cons_self _ _⟩
        | tail _ hmem =>
          obtain ⟨y, hy, hmem'⟩ := ih hrest hmem
          exact ⟨y, hy, List.mem_cons_of_mem _ hmem'⟩

theorem mapOpt_length {α β : Type} {f : α → Option β} :
    ∀ {l : List α} {ys : List β}, mapOpt f l = some ys → ys.length = l.length := by
  intro l
  induction l with
  | nil => intro ys h; cases h; rfl
  | cons z zs ih =>
    intro ys h
    unfold mapOpt at h
    cases hfz : f z with
    | none => rw [hfz] at h; cases h
    | some y0 =>
      rw [hfz] at h
      cases hrest : mapOpt f zs with
      | none => rw [hrest] at h; cases h
      | some ys0 =>
        rw [hrest] at h
        cases h
        simp [ih hrest]

theorem mapOpt_pair {α β : Type} {f : α → Option β} {x z : α} {y w : β}
    (hx : f x = some y) (hz : f z = some w) : mapOpt f [x, z] = some [y, w] := by
  simp [mapOpt, hx, hz]

/-! ### Character lemmas -/

theorem advanceArc_arc (c : Character) : (c.advanceArc).1.arc = c.arc := by
  unfold Character.advanceArc
  split <;> rfl

theorem advanceArc_keeps (c : Character) :
    (c.advanceArc).1.name = c.name ∧ (c.advanceArc).1.id = c.id := by
  unfold Character.advanceArc
  split <;> exact ⟨rfl, rfl⟩

theorem advanceArc_stage_le (c : Character) : c.stageIndex ≤ (c.advanceArc).1.stageIndex := by
  unfold Character.advanceArc
  split
  · exact Nat.le_succ _
  · exact Nat.le_refl _

theorem advanceArc_stage_bound {c : Character} (h : c.stageIndex < c.arc.length) :
    (c.advanceArc).1.stageIndex < (c.advanceArc).1.arc.length := by
  rw [advanceArc_arc]
  unfold Character.advanceArc
  split
  · simp only
    omega
  · exact h


/-! ### State-machine lemmas -/

/-- The transition of `_advanceStructure` on the `(actIndex, chapter,
completed)` triple, for a book that is not yet completed. -/
def advTriple (m a c : Nat) : Nat × Nat × Bool :=
  if c ≥ m then (if a ≥ 2 then (a, c, true) else (a + 1, 1, false)) else (a, c + 1, false)

theorem advanceStructure_frame (b : LiveBook) :
    (b.advanceStructure).characters = b.characters ∧
    (b.advanceStructure).history = b.history ∧
    (b.advanceStructure).epilogue = b.epilogue ∧
    (b.advanceStructure).maxChaptersPerAct = b.maxChaptersPerAct ∧
    (b.advanceStructure).title = b.title ∧
    (b.advanceStructure).theme = b.theme ∧
    (b.advanceStructure).setting = b.setting ∧
    (b.advanceStructure).mood = b.mood := by
  unfold LiveBook.advanceStructure
  split
  · split
    · exact ⟨rfl, rfl, rfl, rfl, rfl, rfl, rfl, rfl⟩
    · exact ⟨rfl, rfl, rfl, rfl, rfl, rfl, rfl, rfl⟩
  · exact ⟨rfl, rfl, rfl, rfl, rfl, rfl, rfl, rfl⟩

theorem advanceStructure_triple {b : LiveBook} (h : b.completed = false) :
    ((b.advanceStructure).actIndex, (b.advanceStructure).chapter, (b.advanceStructure).completed)
      = advTriple b.maxChaptersPerAct b.actIndex b.chapter := by
  unfold LiveBook.advanceStructure advTriple
  have hlen : ACTS.length - 1 = 2 := rfl
  rw [hlen]
  split
  · split
    · rfl
    · simp [h]
  · simp [h]

theorem generatePassage_completed {b : LiveBook} (h : b.completed = true)
    (choice : Choice) (r1 r2 r3 : Nat) :
    b.generatePassage choice r1 r2 r3 = some (b, sentinelText) := by
  unfold LiveBook.generatePassage
  rw [h]
  rfl

theorem generatePassage_elim {b b' : LiveBook} {choice : Choice} {r1 r2 r3 : Nat} {t : Str}
    (hc : b.completed = false)
    (h : b.generatePassage choice r1 r2 r3 = some (b', t)) :
    ∃ act result, ACTS[b.actIndex]? = some act ∧
      b.dispatchBranch act choice r1 r2 r3 = some result ∧
      b.postProcess act choice result.1 result.2 = some (b', t) := by
  unfold LiveBook.generatePassage at h
  rw [hc] at h
  simp only [Bool.false_eq_true, if_false] at h
  split at h
  · cases h
  · rename_i act hact
    split at h
    · cases h
    · rename_i result hdis
      exact ⟨act, result, hact, hdis, h⟩

theorem afterRecord_fields (b : LiveBook) (act : Act) (choice : Choice)
    (chars : List Character) (ps : List Str) :
    (b.afterRecord act choice chars ps).characters = chars ∧
    (b.afterRecord act choice chars ps).history = b.history ++ [recordEntry b act choice ps] ∧
    (b.afterRecord act choice chars ps).maxChaptersPerAct = b.maxChaptersPerAct ∧
    (b.afterRecord act choice chars ps).title = b.title ∧
    (b.afterRecord act choice chars ps).theme = b.theme ∧
    (b.afterRecord act choice chars ps).setting = b.setting ∧
    (b.afterRecord act choice chars ps).epilogue = b.epilogue := by
  unfold LiveBook.afterRecord
  have h := advanceStructure_frame
    { b with characters := chars, history := b.history ++ [recordEntry b act choice ps] }
  exact ⟨h.1, h.2.1, h.2.2.2.1, h.2.2.2.2.1, h.2.2.2.2.2.1, h.2.2.2.2.2.2.1, h.2.2.1⟩

theorem afterRecord_triple {b : LiveBook} (hc : b.completed = false) (act : Act)
    (choice : Choice) (chars : List Character) (ps : List Str) :
    ((b.afterRecord act choice chars ps).actIndex,
     (b.afterRecord act choice chars ps).chapter,
     (b.afterRecord act choice chars ps).completed)
      = advTriple b.maxChaptersPerAct b.actIndex b.chapter := by
  unfold LiveBook.afterRecord
  exact advanceStructure_triple
    (b := { b with characters := chars, history := b.history ++ [recordEntry b act choice ps] }) hc

theorem postProcess_spec {b b' : LiveBook} {act : Act} {choice : Choice}
    {chars : List Character} {paragraphs : List Str} {t : Str}
    (hc : b.completed = false)
    (h : b.postProcess act choice chars paragraphs = some (b', t)) :
    t = joinSep blankLine paragraphs ∧
    b'.characters = chars ∧
    b'.history = b.history ++ [recordEntry b act choice paragraphs] ∧
    b'.title = b.title ∧ b'.theme = b.theme ∧ b'.setting = b.setting ∧
    b'.maxChaptersPerAct = b.maxChaptersPerAct ∧
    (b'.actIndex, b'.chapter, b'.completed)
      = advTriple b.maxChaptersPerAct b.actIndex b.chapter ∧
    (b'.completed = false → b'.epilogue = b.epilogue) ∧
    (b'.completed = true → b'.generateEpilogue = some b'.epilogue) := by
  have hfields := afterRecord_fields b act choice chars paragraphs
  have htrip := afterRecord_triple hc act choice chars paragraphs
  unfold LiveBook.postProcess at h
  split at h
  · rename_i hdone
    rw [Option.map_eq_some'] at h
    obtain ⟨e, hep, heq⟩ := h
    cases heq
    refine ⟨rfl, hfields.1, hfields.2.1, hfields.2.2.2.1, hfields.2.2.2.2.1,
      hfields.2.2.2.2.2.1, hfields.2.2.1, htrip, ?_, ?_⟩
    · intro hfalse
      exact absurd (hfalse ▸ hdone) (by simp)
    · intro _
      rw [← hep]
      rfl
  · rename_i hdone
    cases h
    refine ⟨rfl, hfields.1, hfields.2.1, hfields.2.2.2.1, hfields.2.2.2.2.1,
      hfields.2.2.2.2.2.1, hfields.2.2.1, htrip, ?_, ?_⟩
    · intro _
      exact hfields.2.2.2.2.2.2
    · intro htrue
      exact absurd htrue hdone

/-! ### Dispatch lemmas -/

theorem dispatchBranch_world {b : LiveBook} {act : Act} {choice : Choice} {r1 r2 r3 : Nat}
    (h : choice.id = str ("world")) :
    b.dispatchBranch act choice r1 r2 r3
      = some (b.characters, b.generateWorldPassage act r1 r2) := by
  unfold LiveBook.dispatchBranch
  rw [if_pos (by simp [h])]

theorem dispatchBranch_twist {b : LiveBook} {act : Act} {choice : Choice} {r1 r2 r3 : Nat}
    (h : choice.id = str ("twist")) :
    b.dispatchBranch act choice r1 r2 r3
      = (b.generateTwistPassage act r1 r2 r3).map (fun ps => (b.characters, ps)) := by
  unfold LiveBook.dispatchBranch
  rw [if_neg (by rw [h]; decide), if_pos (by simp [h])]

theorem dispatchBranch_fallback {b : LiveBook} {act : Act} {choice : Choice} {r1 r2 r3 : Nat}
    (hw : choice.id ≠ str ("world")) (ht : choice.id ≠ str ("twist"))
    (hp : leadsWith (str ("character:")) choice.id = false) :
    b.dispatchBranch act choice r1 r2 r3 = some (b.characters, [hesitationText]) := by
  unfold LiveBook.dispatchBranch
  rw [if_neg (by simpa using hw), if_neg (by simpa using ht), if_neg (by simp [hp])]

theorem generateCharacterPassage_fst {b : LiveBook} {act : Act} {c : Character} {r : Nat}
    {out : Character × List Str} (h : b.generateCharacterPassage act c r = some out) :
    out.1 = (c.advanceArc).1 := by
  unfold LiveBook.generateCharacterPassage at h
  split at h
  · cases h
    rfl
  · cases h

theorem dispatchBranch_wf {b : LiveBook} {act : Act} {choice : Choice} {r1 r2 r3 : Nat}
    {result : List Character × List Str}
    (h : b.dispatchBranch act choice r1 r2 r3 = some result)
    (hwf : ∀ c ∈ b.characters, c.stageIndex < c.arc.length) :
    (∀ c ∈ result.1, c.stageIndex < c.arc.length) ∧
    result.1.length = b.characters.length := by
  unfold LiveBook.dispatchBranch at h
  split at h
  · cases h
    exact ⟨hwf, rfl⟩
  · split at h
    · rw [Option.map_eq_some'] at h
      obtain ⟨ps, _, heq⟩ := h
      cases heq
      exact ⟨hwf, rfl⟩
    · split at h
      · split at h
        · cases h
        · rename_i i hfind
          split at h
          · cases h
          · rename_i c hgot
            rw [Option.map_eq_some'] at h
            obtain ⟨out, hout, heq⟩ := h
            cases heq
            have hcmem : c ∈ b.characters := List.getElem?_mem hgot
            have hout1 : out.1 = (c.advanceArc).1 := generateCharacterPassage_fst hout
            constructor
            · intro x hx
              rcases List.mem_or_eq_of_mem_set hx with hmem | heq'
              · exact hwf x hmem
              · subst heq'
                rw [hout1]
                exact advanceArc_stage_bound (hwf c hcmem)
            · exact List.length_set _ _ _
      · cases h
        exact ⟨hwf, rfl⟩

/-! ### Forward existence lemmas -/

theorem generateEpilogue_some_of_wf {b : LiveBook}
    (hwf : ∀ c ∈ b.characters, c.stageIndex < c.arc.length) :
    ∃ e, b.generateEpilogue = some e := by
  unfold LiveBook.generateEpilogue
  have hsome : ∀ c ∈ b.characters,
      ((fun c : Character => (c.arc[c.stageIndex]?).map (fun stage =>
        c.name ++ str (" resolves within ") ++ stage.title ++ str (", ")
          ++ lowerStr stage.summary ++ str ("."))) c).isSome := by
    intro c hc
    simp [List.getElem?_eq_getElem (hwf c hc)]
  obtain ⟨ys, hys⟩ := mapOpt_some_of_forall hsome
  rw [hys]
  exact ⟨_, rfl⟩

theorem postProcess_some_of_wf {b : LiveBook} (act : Act) (choice : Choice)
    {chars : List Character} (ps : List Str)
    (hwf : ∀ c ∈ chars, c.stageIndex < c.arc.length) :
    ∃ b', b.postProcess act choice chars ps = some (b', joinSep blankLine ps) := by
  unfold LiveBook.postProcess
  split
  · have hwf' : ∀ c ∈ (b.afterRecord act choice chars ps).characters,
        c.stageIndex < c.arc.length := by
      rw [(afterRecord_fields b act choice chars ps).1]
      exact hwf
    obtain ⟨e, he⟩ := generateEpilogue_some_of_wf hwf'
    rw [he]
    exact ⟨_, rfl⟩
  · exact ⟨_, rfl⟩

theorem generatePassage_some {b : LiveBook} {choice : Choice} {r1 r2 r3 : Nat} {act : Act}
    {result : List Character × List Str}
    (hc : b.completed = false) (hact : ACTS[b.actIndex]? = some act)
    (hdis : b.dispatchBranch act choice r1 r2 r3 = some result)
    (hwf : ∀ c ∈ result.1, c.stageIndex < c.arc.length) :
    ∃ b', b.generatePassage choice r1 r2 r3 = some (b', joinSep blankLine result.2) := by
  obtain ⟨b', hb'⟩ := postProcess_some_of_wf (b := b) act choice result.2 hwf
  refine ⟨b', ?_⟩
  unfold LiveBook.generatePassage
  rw [hc]
  simp only [Bool.false_eq_true, if_false]
  simp only [hact, hdis]
  exact hb'

/-! ### Trace lemmas -/

theorem runTrace_completed {b : LiveBook} (h : b.completed = true) :
    ∀ tr : List CallArg, runTrace b tr = some b := by
  intro tr
  induction tr with
  | nil => rfl
  | cons a rest ih =>
    unfold runTrace
    rw [generatePassage_completed h a.choice a.r1 a.r2 a.r3]
    exact ih

theorem runTrace_history : ∀ (tr : List CallArg) (b b' : LiveBook),
    runTrace b tr = some b' →
    ∃ tail, b'.history = b.history ++ tail ∧ tail.length = acceptedCount b tr := by
  intro tr
  induction tr with
  | nil =>
    intro b b' h
    cases h
    exact ⟨[], by simp, rfl⟩
  | cons a rest ih =>
    intro b b' h
    unfold runTrace at h
    split at h
    · cases h
    · rename_i result hgen
      obtain ⟨tail, htail, hlen⟩ := ih result.1 b' h
      by_cases hc : b.completed
      · have hsent := generatePassage_completed (b := b) hc a.choice a.r1 a.r2 a.r3
        rw [hsent] at hgen
        cases hgen
        refine ⟨tail, by simpa using htail, ?_⟩
        unfold acceptedCount
        rw [hsent]
        simp [hc, hlen]
      · have hcf : b.completed = false := by simpa using hc
        obtain ⟨act, res2, hact, hdis, hpost⟩ := generatePassage_elim hcf hgen
        obtain ⟨_, _, hhist, _⟩ := postProcess_spec hcf hpost
        refine ⟨recordEntry b act a.choice res2.2 :: tail, ?_, ?_⟩
        · rw [htail, hhist]
          simp
        · unfold acceptedCount
          rw [hgen]
          simp [hcf, hlen]
          omega

/-! ### Completion-count characterization -/

def WFchars (b : LiveBook) : Prop := ∀ c ∈ b.characters, c.stageIndex < c.arc.length

/-- Invariant of the book reached after `k` accepted passage requests from a
fresh well-formed book with `maxChaptersPerAct = m`. -/
def MidP (m k : Nat) (b : LiveBook) : Prop :=
  b.maxChaptersPerAct = m ∧ WFchars b ∧ b.completed = false ∧ b.epilogue = [] ∧
  ∃ a c, b.actIndex = a ∧ b.chapter = c ∧ a < 3 ∧ 1 ≤ c ∧ c ≤ m ∧ k = a * m + c - 1

theorem midp_lt {m k : Nat} {b : LiveBook} (hm : 1 ≤ m) (hmid : MidP m k b) : k < 3 * m := by
  obtain ⟨_, _, _, _, a, c, _, _, ha3, hc1, hcm, hk⟩ := hmid
  have ha : a = 0 ∨ a = 1 ∨ a = 2 := by omega
  rcases ha with rfl | rfl | rfl <;> omega

theorem midp_step {m k : Nat} {b b' : LiveBook} {ch : Choice} {r1 r2 r3 : Nat} {t : Str}
    (hm : 1 ≤ m) (hmid : MidP m k b)
    (h : b.generatePassage ch r1 r2 r3 = some (b', t)) :
    (k + 1 < 3 * m → MidP m (k + 1) b') ∧
    (k + 1 = 3 * m → b'.completed = true ∧ b'.generateEpilogue = some b'.epilogue ∧
      WFchars b' ∧ b'.theme = b.theme) := by
  obtain ⟨hmax, hwf, hcomp, hep, a, c, hai, hch, ha3, hc1, hcm, hk⟩ := hmid
  obtain ⟨act, result, hact, hdis, hpost⟩ := generatePassage_elim hcomp h
  have hwf2 := dispatchBranch_wf hdis hwf
  obtain ⟨ht, hchars, hhist, htitle, htheme, hsetting, hmax', htrip, hepfalse, heptrue⟩ :=
    postProcess_spec hcomp hpost
  rw [hmax, hai, hch] at htrip
  have hmaxm : b'.maxChaptersPerAct = m := hmax'.trans hmax
  have hwfb' : WFchars b' := by
    intro x hx
    rw [hchars] at hx
    exact hwf2.1 x hx
  have ha012 : a = 0 ∨ a = 1 ∨ a = 2 := by omega
  by_cases hge : c ≥ m
  · rcases ha012 with rfl | rfl | rfl
    · have hadv : advTriple m 0 c = (1, 1, false) := by simp [advTriple, hge]
      rw [hadv, Prod.mk.injEq, Prod.mk.injEq] at htrip
      obtain ⟨h1, h2, h3⟩ := htrip
      constructor
      · intro _
        exact ⟨hmaxm, hwfb', h3, (hepfalse h3).trans hep,
          1, 1, h1, h2, by omega, Nat.le_refl 1, hm, by omega⟩
      · intro heq
        omega
    · have hadv : advTriple m 1 c = (2, 1, false) := by simp [advTriple, hge]
      rw [hadv, Prod.mk.injEq, Prod.mk.injEq] at htrip
      obtain ⟨h1, h2, h3⟩ := htrip
      constructor
      · intro _
        exact ⟨hmaxm, hwfb', h3, (hepfalse h3).trans hep,
          2, 1, h1, h2, by omega, Nat.le_refl 1, hm, by omega⟩
      · intro heq
        omega
    · have hadv : advTriple m 2 c = (2, c, true) := by simp [advTriple, hge]
      rw [hadv, Prod.mk.injEq, Prod.mk.injEq] at htrip
      obtain ⟨h1, h2, h3⟩ := htrip
      constructor
      · intro hlt
        omega
      · intro _
        exact ⟨h3, heptrue h3, hwfb', htheme⟩
  · have hadv : advTriple m a c = (a, c + 1, false) := by
      unfold advTriple
      rw [if_neg hge]
    rw [hadv, Prod.mk.injEq, Prod.mk.injEq] at htrip
    obtain ⟨h1, h2, h3⟩ := htrip
    constructor
    · intro _
      exact ⟨hmaxm, hwfb', h3, (hepfalse h3).trans hep,
        a, c + 1, h1, h2, ha3, by omega, by omega, by omega⟩
    · intro heq
      rcases ha012 with rfl | rfl | rfl <;> omega

theorem runTrace_midp {m : Nat} (hm : 1 ≤ m) :
    ∀ (tr : List CallArg) (k : Nat) (b b' : LiveBook), MidP m k b →
      runTrace b tr = some b' → k + tr.length ≤ 3 * m →
      (k + tr.length < 3 * m → MidP m (k + tr.length) b') ∧
      (k + tr.length = 3 * m → b'.completed = true ∧
        b'.generateEpilogue = some b'.epilogue ∧ WFchars b') := by
  intro tr
  induction tr with
  | nil =>
    intro k b b' hmid h hle
    cases h
    have hk3 := midp_lt hm hmid
    simp only [List.length_nil, Nat.add_zero]
    exact ⟨fun _ => hmid, fun heq => absurd heq (by omega)⟩
  | cons a rest ih =>
    intro k b b' hmid h hle
    unfold runTrace at h
    split at h
    · cases h
    · rename_i result hgen
      have hstep := midp_step hm hmid (show _ = some (result.1, result.2) from hgen)
      by_cases hfin : k + 1 = 3 * m
      · have hfacts := hstep.2 hfin
        have hres : runTrace result.1 rest = some result.1 := runTrace_completed hfacts.1 rest
        rw [h] at hres
        cases hres
        constructor
        · intro hlt
          simp only [List.length_cons] at hle hlt
          omega
        · intro _
          exact ⟨hfacts.1, hfacts.2.1, hfacts.2.2.1⟩
      · have hk1 : k + 1 < 3 * m := by
          have := midp_lt hm hmid
          simp only [List.length_cons] at hle
          omega
        have hmid' := hstep.1 hk1
        have hrec := ih (k + 1) result.1 b' hmid' h
          (by simp only [List.length_cons] at hle ⊢; omega)
        have harith : k + 1 + rest.length = k + (a :: rest).length := by
          simp only [List.length_cons]
          omega
        constructor
        · intro hlt
          have h2 := hrec.1 (by omega)
          rwa [harith] at h2
        · intro heq
          exact hrec.2 (by omega)

theorem make_midp {cfg : BookConfig} {m : Nat} (hcfg : cfg.maxChaptersPerAct = some m)
    (hm : 1 ≤ m) (harcs : ∀ cc ∈ cfg.characters, cc.arc ≠ []) :
    MidP m 0 (LiveBook.make cfg) := by
  refine ⟨?_, ?_, rfl, rfl, 0, 1, rfl, rfl, by omega, Nat.le_refl 1, hm, by omega⟩
  · unfold LiveBook.make
    rw [hcfg]
    cases m with
    | zero => omega
    | succ n => rfl
  · intro c hc
    unfold LiveBook.make at hc
    simp only [List.mem_map] at hc
    obtain ⟨cc, hccmem, rfl⟩ := hc
    unfold Character.make
    simp only
    have := harcs cc hccmem
    cases harc : cc.arc with
    | nil => exact absurd harc this
    | cons s ss => simp [harc]

theorem generateEpilogue_contains {b : LiveBook} {e : Str} (h : b.generateEpilogue = some e) :
    e ≠ [] ∧ ∀ c ∈ b.characters, ∃ stage, c.arc[c.stageIndex]? = some stage ∧
      ContainsStr e c.name ∧ ContainsStr e stage.title ∧
      ContainsStr e (lowerStr stage.summary) := by
  unfold LiveBook.generateEpilogue at h
  rw [Option.map_eq_some'] at h
  obtain ⟨closures, hmap, heq⟩ := h
  subst heq
  constructor
  · intro hcontra
    simp [str] at hcontra
  · intro c hc
    obtain ⟨y, hy, hymem⟩ := mapOpt_mem hmap hc
    rw [Option.map_eq_some'] at hy
    obtain ⟨stage, hstage, hyeq⟩ := hy
    obtain ⟨p, q, hpq⟩ := joinSep_mem (str (" ")) closures y hymem
    refine ⟨stage, hstage, ?_, ?_, ?_⟩
    · refine ⟨str ("\nEpilogue — The living book settles. ") ++ p,
        str (" resolves within ") ++ stage.title ++ str (", ") ++ lowerStr stage.summary
          ++ str (".") ++ q ++ str (" Together they prove that ") ++ lowerStr b.theme
          ++ str (" can carry a city beyond the storm."), ?_⟩
      rw [hpq, ← hyeq]
      simp [List.append_assoc]
    · refine ⟨str ("\nEpilogue — The living book settles. ") ++ p ++ c.name
          ++ str (" resolves within "),
        str (", ") ++ lowerStr stage.summary ++ str (".") ++ q
          ++ str (" Together they prove that ") ++ lowerStr b.theme
          ++ str (" can carry a city beyond the storm."), ?_⟩
      rw [hpq, ← hyeq]
      simp [List.append_assoc]
    · refine ⟨str ("\nEpilogue — The living book settles. ") ++ p ++ c.name
          ++ str (" resolves within ") ++ stage.title ++ str (", "),
        str (".") ++ q ++ str (" Together they prove that ") ++ lowerStr b.theme
          ++ str (" can carry a city beyond the storm."), ?_⟩
      rw [hpq, ← hyeq]
      simp [List.append_assoc]

/-! ### Concrete fixtures -/

def wStage1 : Stage := { title := str ("Alpha"), summary := str ("She Begins") }

def wStage2 : Stage := { title := str ("Beta"), summary := str ("she endures") }

def wCharCfg : CharacterConfig :=
  { name := str ("Ana X"), role := str ("guide"), desire := str ("see"),
    fear := str ("dark"), secret := str ("maps"), arc := [wStage1, wStage2] }

def wCharCfg2 : CharacterConfig :=
  { name := str ("Bo Y"), role := str ("smith"), desire := str ("build"),
    fear := str ("rust"), secret := str ("keys"), arc := [wStage2] }

def wCfg : BookConfig :=
  { title := str ("T"), theme := str ("Hope"), setting := str ("City"),
    mood := str ("calm"), maxChaptersPerAct := some 1, characters := [wCharCfg] }

def w2Cfg : BookConfig :=
  { title := str ("T"), theme := str ("Hope"), setting := str ("City"),
    mood := str ("calm"), maxChaptersPerAct := some 1,
    characters := [wCharCfg, wCharCfg2] }

def badCfg : BookConfig :=
  { title := str ("B"), theme := str ("T"), setting := str ("S"),
    mood := str ("M"), maxChaptersPerAct := some 0, characters := [] }

def wBook : LiveBook := LiveBook.make wCfg

def w2Book : LiveBook := LiveBook.make w2Cfg

def doneBook : LiveBook := { wBook with completed := true }

def wChoice : Choice := { id := str ("world"), label := str ("Explore") }

def twChoice : Choice := { id := str ("twist"), label := str ("Twist") }

def bogusChoice : Choice := { id := str ("bogus"), label := str ("Bogus") }

def wArg : CallArg := { choice := wChoice, r1 := 0, r2 := 0, r3 := 0 }

def wTrace : List CallArg := [wArg, wArg, wArg]

def wFinal : LiveBook := (runTrace wBook wTrace).getD wBook

def w2Choices : LiveBook × List Choice := (w2Book.getChoices).getD (w2Book, [])

def wAfter1 : LiveBook × Str := (wBook.generatePassage wChoice 0 0 0).getD (wBook, [])

def bAfterBogus : LiveBook × Str := (wBook.generatePassage bogusChoice 0 0 0).getD (wBook, [])

/-! ### Claim theorems -/

/-- C1: for every accepted `generatePassage` call (one not rejected by the
completion guard), the `(actIndex, chapter)` state machine takes exactly one
transition: if `chapter < maxChaptersPerAct` the chapter is incremented and
the act unchanged; otherwise if `actIndex < 2` the state moves to
`(actIndex + 1, 1)`; otherwise the completed flag is set (act and chapter
unchanged).  Once completed, no call changes the state again, so the terminal
transition is taken at most once over the engine's lifetime. -/
theorem claim1_transition :
    (∀ (b b' : LiveBook) (ch : Choice) (r1 r2 r3 : Nat) (t : Str),
      b.completed = false → b.generatePassage ch r1 r2 r3 = some (b', t) →
      (b.chapter < b.maxChaptersPerAct →
        b'.chapter = b.chapter + 1 ∧ b'.actIndex = b.actIndex ∧ b'.completed = false) ∧
      (¬ b.chapter < b.maxChaptersPerAct → b.actIndex < 2 →
        b'.actIndex = b.actIndex + 1 ∧ b'.chapter = 1 ∧ b'.completed = false) ∧
      (¬ b.chapter < b.maxChaptersPerAct → ¬ b.actIndex < 2 →
        b'.completed = true ∧ b'.actIndex = b.actIndex ∧ b'.chapter = b.chapter)) ∧
    (∀ (b : LiveBook) (tr : List CallArg), b.completed = true → runTrace b tr = some b) := by
  constructor
  · intro b b' ch r1 r2 r3 t hc h
    obtain ⟨act, result, hact, hdis, hpost⟩ := generatePassage_elim hc h
    have htrip := (postProcess_spec hc hpost).2.2.2.2.2.2.2.1
    refine ⟨?_, ?_, ?_⟩
    · intro hlt
      have hnge : ¬ b.chapter ≥ b.maxChaptersPerAct := by omega
      unfold advTriple at htrip
      rw [if_neg hnge, Prod.mk.injEq, Prod.mk.injEq] at htrip
      exact ⟨htrip.2.1, htrip.1, htrip.2.2⟩
    · intro hge2 hai
      have hge : b.chapter ≥ b.maxChaptersPerAct := by omega
      have hna : ¬ b.actIndex ≥ 2 := by omega
      unfold advTriple at htrip
      rw [if_pos hge, if_neg hna, Prod.mk.injEq, Prod.mk.injEq] at htrip
      exact ⟨htrip.1, htrip.2.1, htrip.2.2⟩
    · intro hge2 hai
      have hge : b.chapter ≥ b.maxChaptersPerAct := by omega
      have ha2 : b.actIndex ≥ 2 := by omega
      unfold advTriple at htrip
      rw [if_pos hge, if_pos ha2, Prod.mk.injEq, Prod.mk.injEq] at htrip
      exact ⟨htrip.2.2, htrip.1, htrip.2.1⟩
  · intro b tr hc
    exact runTrace_completed hc tr

theorem claim1_witness :
    wBook.completed = false ∧ wAfter1.1.actIndex = 1 ∧ wAfter1.1.chapter = 1 ∧
    wAfter1.1.completed = false := by
  have h := claim1_transition.1 wBook wAfter1.1 wChoice 0 0 0 wAfter1.2 (by decide) (by decide)
  have h2 := h.2.1 (by decide) (by decide)
  exact ⟨by decide, h2.1.trans (by decide), h2.2.1, h2.2.2⟩

/-- C5: when the completed flag is set, `generatePassage` returns the fixed
sentinel string and the book is returned entirely unchanged — no history
entry, no character change, and `actIndex`, `chapter`, `completed`,
`epilogue` all unmodified. -/
theorem claim5_sentinel (b : LiveBook) (ch : Choice) (r1 r2 r3 : Nat)
    (h : b.completed = true) :
    b.generatePassage ch r1 r2 r3 = some (b, sentinelText) :=
  generatePassage_completed h ch r1 r2 r3

theorem claim5_witness :
    doneBook.generatePassage wChoice 0 0 0 = some (doneBook, sentinelText) :=
  claim5_sentinel doneBook wChoice 0 0 0 (by decide)

/-- C7: history is append-only; a call on a completed book appends nothing
and changes nothing; an accepted call appends exactly one entry recording the
1-based act number, the act name, the chapter in effect, the submitted
choice's label, and the paragraphs joined by a blank line (which is also the
returned text); over any trace the history grows by exactly the number of
accepted calls, in call order. -/
theorem claim7_history :
    (∀ (b : LiveBook) (ch : Choice) (r1 r2 r3 : Nat), b.completed = true →
      b.generatePassage ch r1 r2 r3 = some (b, sentinelText)) ∧
    (∀ (b b' : LiveBook) (ch : Choice) (r1 r2 r3 : Nat) (t : Str), b.completed = false →
      b.generatePassage ch r1 r2 r3 = some (b', t) →
      ∃ act paragraphs, ACTS[b.actIndex]? = some act ∧
        b'.history = b.history ++
          [{ act := b.actIndex + 1, actName := act.name, chapter := b.chapter,
             choice := ch.label, text := joinSep blankLine paragraphs }] ∧
        t = joinSep blankLine paragraphs) ∧
    (∀ (b b' : LiveBook) (tr : List CallArg), runTrace b tr = some b' →
      ∃ tail, b'.history = b.history ++ tail ∧ tail.length = acceptedCount b tr) := by
  refine ⟨?_, ?_, ?_⟩
  · intro b ch r1 r2 r3 h
    exact generatePassage_completed h ch r1 r2 r3
  · intro b b' ch r1 r2 r3 t hc h
    obtain ⟨act, result, hact, hdis, hpost⟩ := generatePassage_elim hc h
    have hspec := postProcess_spec hc hpost
    exact ⟨act, result.2, hact, hspec.2.2.1, hspec.1⟩
  · intro b b' tr h
    exact runTrace_history tr b b' h

theorem claim7_witness : wFinal.history.length = acceptedCount wBook wTrace := by
  obtain ⟨tail, htail, hlen⟩ := claim7_history.2.2 wBook wFinal wTrace (by decide)
  rw [htail, show wBook.history = [] from by decide]
  simpa using hlen

/-- C10: `getChoices` is side-effect-free — it sorts a copy of the roster, so
whenever it returns, the book component of the result is the unchanged input
book (roster order, stage indices, and all engine fields included). -/
theorem claim10_frame (b : LiveBook) (p : LiveBook × List Choice)
    (h : b.getChoices = some p) : p.1 = b := by
  unfold LiveBook.getChoices at h
  split at h
  · cases h
    rfl
  · split at h
    · cases h
    · cases h
      rfl

theorem claim10_witness : w2Choices.1 = w2Book :=
  claim10_frame w2Book w2Choices (by decide)

/-- C2 (amended): for every engine built from a configuration with a positive
`chaptersPerAct` `m` and non-empty arcs, a crash-free run of fewer than
`3 * m` calls leaves `isComplete()` false and the epilogue empty; a run of
exactly `3 * m` calls (all of which are accepted, completion happening only
on the last) makes `isComplete()` true and the epilogue a non-empty string
containing, for every character of the roster, the character's name, the
title of their current (final) stage, and that stage's summary rendered in
lower case; the epilogue equals the value computed at the completing
transition and no further call changes the book. -/
theorem claim2_completion (cfg : BookConfig) (m : Nat)
    (hcfg : cfg.maxChaptersPerAct = some m) (hm : 1 ≤ m)
    (harcs : ∀ cc ∈ cfg.characters, cc.arc ≠ [])
    (tr : List CallArg) (b' : LiveBook)
    (hrun : runTrace (LiveBook.make cfg) tr = some b') (hlen : tr.length ≤ 3 * m) :
    (tr.length < 3 * m → b'.isComplete = false ∧ b'.epilogue = []) ∧
    (tr.length = 3 * m →
      b'.isComplete = true ∧ b'.epilogue ≠ [] ∧
      b'.generateEpilogue = some b'.epilogue ∧
      (∀ c ∈ b'.characters, ∃ stage, c.arc[c.stageIndex]? = some stage ∧
        ContainsStr b'.epilogue c.name ∧ ContainsStr b'.epilogue stage.title ∧
        ContainsStr b'.epilogue (lowerStr stage.summary)) ∧
      (∀ extra : List CallArg, runTrace b' extra = some b')) := by
  have hmid0 := make_midp hcfg hm harcs
  have hres := runTrace_midp hm tr 0 (LiveBook.make cfg) b' hmid0 hrun (by omega)
  simp only [Nat.zero_add] at hres
  constructor
  · intro hlt
    obtain ⟨_, _, hcomp, hep, _⟩ := hres.1 hlt
    exact ⟨hcomp, hep⟩
  · intro heq
    obtain ⟨hcomp, hepi, hwf⟩ := hres.2 heq
    obtain ⟨hne, hconts⟩ := generateEpilogue_contains hepi
    exact ⟨hcomp, hne, hepi, hconts, fun extra => runTrace_completed hcomp extra⟩

theorem claim2_counterexample :
    runTrace wBook wTrace = some wFinal ∧
    wFinal.isComplete = true ∧
    wFinal.characters.map (fun c => c.arc[c.stageIndex]?) = [some wStage1] ∧
    wStage1.summary = str ("She Begins") ∧
    ¬ ContainsStr wFinal.epilogue wStage1.summary := by
  refine ⟨by decide, by decide, by decide, by decide, ?_⟩
  intro hcon
  have hb := (containsB_iff wFinal.epilogue wStage1.summary).mpr hcon
  revert hb
  decide

theorem claim2_witness :
    wFinal.isComplete = true ∧ wFinal.epilogue ≠ [] := by
  have h := claim2_completion wCfg 1 (by decide) (by decide) (by decide) wTrace wFinal
    (by decide) (by decide)
  have h2 := h.2 (by decide)
  exact ⟨h2.1, h2.2.1⟩

/-- The n-fold iteration of `advanceArc()` (discarding the returned flags). -/
def advIter (c : Character) : Nat → Character
  | 0 => c
  | n + 1 => ((advIter c n).advanceArc).1

theorem advIter_arc (c : Character) : ∀ n, (advIter c n).arc = c.arc := by
  intro n
  induction n with
  | zero => rfl
  | succ n ih =>
    show ((advIter c n).advanceArc).1.arc = c.arc
    rw [advanceArc_arc]
    exact ih

/-- C4: `advanceArc()` at the last stage returns false and leaves the
character unchanged; below the last stage it increments `stageIndex` by one
and returns true; consequently, for a character constructed from a non-empty
arc, `stageIndex` is monotonically non-decreasing across any sequence of
`advanceArc()` calls and never exceeds `arc.length - 1`. -/
theorem claim4_advanceArc (cfg : CharacterConfig) (h0 : cfg.arc ≠ []) :
    (∀ c : Character, c.stageIndex = c.arc.length - 1 → c.advanceArc = (c, false)) ∧
    (∀ c : Character, c.stageIndex < c.arc.length - 1 →
      c.advanceArc = ({ c with stageIndex := c.stageIndex + 1 }, true)) ∧
    (∀ n, (advIter (Character.make cfg) n).stageIndex
      ≤ (advIter (Character.make cfg) (n + 1)).stageIndex) ∧
    (∀ n, (advIter (Character.make cfg) n).stageIndex ≤ cfg.arc.length - 1) := by
  refine ⟨?_, ?_, ?_, ?_⟩
  · intro c h
    unfold Character.advanceArc
    rw [if_neg (by omega)]
  · intro c h
    unfold Character.advanceArc
    rw [if_pos h]
  · intro n
    exact advanceArc_stage_le (advIter (Character.make cfg) n)
  · intro n
    induction n with
    | zero =>
      show (Character.make cfg).stageIndex ≤ cfg.arc.length - 1
      unfold Character.make
      simp
    | succ n ih =>
      show ((advIter (Character.make cfg) n).advanceArc).1.stageIndex ≤ cfg.arc.length - 1
      have harc : (advIter (Character.make cfg) n).arc = cfg.arc := by
        rw [advIter_arc]
        rfl
      unfold Character.advanceArc
      split
      · rename_i hlt
        rw [harc] at hlt
        simp only
        omega
      · exact ih

theorem claim4_witness :
    wCharCfg.arc ≠ [] ∧
    (advIter (Character.make wCharCfg) 5).stageIndex ≤ wCharCfg.arc.length - 1 := by
  refine ⟨by decide, ?_⟩
  exact (claim4_advanceArc wCharCfg (by decide)).2.2.2 5

theorem claim6_counterexample :
    wBook.completed = false ∧
    wBook.generatePassage { id := str ("character:nobody"), label := str ("x") } 0 0 0
      = none := by
  exact ⟨by decide, by decide⟩

/-- C6 (amended): for a non-completed, reachable book and a choice whose id is
neither `world` nor `twist` and does not start with `character:`,
`generatePassage` returns the fixed hesitation sentence without throwing,
appends exactly one history entry carrying that text, and still advances the
act/chapter state machine by one step.  (A choice id with a `character:`
prefix whose slug matches no character instead throws a `TypeError`, shown by
`claim6_counterexample`.) -/
theorem claim6_fallback (b : LiveBook) (ch : Choice) (r1 r2 r3 : Nat)
    (hc : b.completed = false) (hwf : WFchars b) (hact : b.actIndex < 3)
    (hw : ch.id ≠ str ("world")) (ht : ch.id ≠ str ("twist"))
    (hp : leadsWith (str ("character:")) ch.id = false) :
    ∃ b' act, ACTS[b.actIndex]? = some act ∧
      b.generatePassage ch r1 r2 r3 = some (b', hesitationText) ∧
      b'.history = b.history ++
        [{ act := b.actIndex + 1, actName := act.name, chapter := b.chapter,
           choice := ch.label, text := hesitationText }] ∧
      (b'.actIndex, b'.chapter, b'.completed)
        = advTriple b.maxChaptersPerAct b.actIndex b.chapter := by
  have hlt : b.actIndex < ACTS.length := by simpa [ACTS] using hact
  obtain ⟨act, hacteq⟩ : ∃ act, ACTS[b.actIndex]? = some act :=
    ⟨_, List.getElem?_eq_getElem hlt⟩
  have hdis : b.dispatchBranch act ch r1 r2 r3
      = some (b.characters, [hesitationText]) := dispatchBranch_fallback hw ht hp
  obtain ⟨b', hb'⟩ := generatePassage_some hc hacteq hdis hwf
  obtain ⟨act2, res2, hact2, hdis2, hpost⟩ := generatePassage_elim hc hb'
  rw [hacteq] at hact2
  injection hact2 with hact2
  subst hact2
  rw [hdis] at hdis2
  injection hdis2 with hdis2
  subst hdis2
  have hspec := postProcess_spec hc hpost
  exact ⟨b', act, hacteq, hb', hspec.2.2.1, hspec.2.2.2.2.2.2.2.1⟩

theorem claim6_witness :
    bAfterBogus = (bAfterBogus.1, hesitationText) ∧
    wBook.generatePassage bogusChoice 0 0 0 = some bAfterBogus ∧
    bAfterBogus.1.history.length = 1 := by
  obtain ⟨b', act, hacteq, hgen, hhist, htrip⟩ := claim6_fallback wBook bogusChoice 0 0 0
    (by decide) (by unfold WFchars; decide) (by decide) (by decide) (by decide) (by decide)
  have heq : bAfterBogus = (b', hesitationText) := by
    unfold bAfterBogus
    rw [hgen]
    rfl
  rw [heq]
  refine ⟨rfl, by rw [hgen], ?_⟩
  rw [hhist]
  rw [show wBook.history = [] from by decide]
  rfl

theorem claim8_counterexample :
    (LiveBook.make badCfg).completed = false ∧
    (LiveBook.make badCfg).maxChaptersPerAct = 3 ∧
    (LiveBook.make badCfg).getChoices
      = some (LiveBook.make badCfg,
          [(LiveBook.make badCfg).worldOption, (LiveBook.make badCfg).twistOption]) ∧
    ((LiveBook.make badCfg).generatePassage ((LiveBook.make badCfg).worldOption) 0 0 0).isSome
      = true := by
  exact ⟨by decide, by decide, by decide, by decide⟩

/-- C8 (amended): the constructor performs no validation and never fails — it
always yields an engine in the initial state, for malformed configurations
included; a zero (falsy) `maxChaptersPerAct` is silently replaced by the
default 3, and an empty roster yields a usable engine whose choice menu
consists of just the world and twist options. -/
theorem claim8_construction (cfg : BookConfig) :
    (LiveBook.make cfg).actIndex = 0 ∧ (LiveBook.make cfg).chapter = 1 ∧
    (LiveBook.make cfg).completed = false ∧ (LiveBook.make cfg).history = [] ∧
    (LiveBook.make cfg).epilogue = [] ∧
    (cfg.maxChaptersPerAct = some 0 → (LiveBook.make cfg).maxChaptersPerAct = 3) ∧
    (cfg.characters = [] →
      (LiveBook.make cfg).getChoices
        = some (LiveBook.make cfg,
            [(LiveBook.make cfg).worldOption, (LiveBook.make cfg).twistOption])) := by
  refine ⟨rfl, rfl, rfl, rfl, rfl, ?_, ?_⟩
  · intro h
    unfold LiveBook.make
    rw [h]
  · intro h
    have hch : (LiveBook.make cfg).characters = [] := by
      unfold LiveBook.make
      simp [h]
    unfold LiveBook.getChoices
    rw [hch]
    rfl

theorem claim8_witness :
    (LiveBook.make badCfg).maxChaptersPerAct = 3 ∧
    (LiveBook.make badCfg).completed = false := by
  have h := claim8_construction badCfg
  exact ⟨h.2.2.2.2.2.1 (by decide), h.2.2.1⟩

/-- C9: for a non-completed book whose roster contains exactly one character,
a twist choice never throws: the single character is reused as both the first
and the second participant, so the returned passage is the twist template
instantiated with that character in both roles, and its text mentions the
character's name in both slots of the opening collision sentence. -/
theorem claim9_twist (b : LiveBook) (c : Character) (ch : Choice) (r1 r2 r3 : Nat)
    (hchars : b.characters = [c]) (hc : b.completed = false) (hact : b.actIndex < 3)
    (hwfc : c.stageIndex < c.arc.length) (hid : ch.id = str ("twist")) :
    ∃ b' act, ACTS[b.actIndex]? = some act ∧
      b.generatePassage ch r1 r2 r3
        = some (b', joinSep blankLine
            (twistParagraphs c c ((randomChoice catalysts r3).getD (str ("undefined")))
              act b.theme)) ∧
      ContainsStr
        (joinSep blankLine
          (twistParagraphs c c ((randomChoice catalysts r3).getD (str ("undefined")))
            act b.theme))
        (c.name ++ str (" and ") ++ c.name) := by
  have hlt : b.actIndex < ACTS.length := by simpa [ACTS] using hact
  obtain ⟨act, hacteq⟩ : ∃ act, ACTS[b.actIndex]? = some act :=
    ⟨_, List.getElem?_eq_getElem hlt⟩
  have hfirst : randomChoice b.characters r1 = some c := by
    rw [hchars]
    unfold randomChoice
    simp [Nat.mod_one]
  have htw : b.generateTwistPassage (act) r1 r2 r3
      = some (twistParagraphs c c ((randomChoice catalysts r3).getD (str ("undefined")))
          (act) b.theme) := by
    unfold LiveBook.generateTwistPassage
    simp only [hfirst]
    have hsecond : (randomChoice (b.characters.filter (fun x => x.id != c.id)) r2).getD c
        = c := by
      rw [hchars]
      simp [randomChoice, bne_self_eq_false]
    rw [hsecond]
  have hdis : b.dispatchBranch (act) ch r1 r2 r3
      = some (b.characters,
          twistParagraphs c c ((randomChoice catalysts r3).getD (str ("undefined")))
            (act) b.theme) := by
    rw [dispatchBranch_twist hid, htw]
    rfl
  have hwf : ∀ x ∈ b.characters, x.stageIndex < x.arc.length := by
    rw [hchars]
    intro x hx
    rw [List.mem_singleton] at hx
    subst hx
    exact hwfc
  obtain ⟨b', hb'⟩ := generatePassage_some hc hacteq hdis hwf
  refine ⟨b', act, hacteq, hb', ?_⟩
  refine ⟨[],
    str (" collide beneath a sky trembling with ") ++ (act).tone
      ++ str (". Between them hangs ")
      ++ (randomChoice catalysts r3).getD (str ("undefined"))
      ++ str (", forcing them to reveal priorities sharpened by the storm season.")
      ++ blankLine
      ++ (c.name ++ str (" leans into hard-earned instincts while ") ++ c.name
        ++ str (" weighs the cost of silence. Their choices braid together, tightening the weave of ")
        ++ lowerStr b.theme ++ str ("."))
      ++ blankLine
      ++ str ("The chapter ends with the city tilting ever so slightly, promising that every heartbeat will be counted when the reckoning arrives."), ?_⟩
  simp [twistParagraphs, joinSep, List.append_assoc]

theorem claim9_witness :
    (wBook.generatePassage twChoice 0 0 0).isSome = true := by
  obtain ⟨b', act, hacteq, hgen, hcont⟩ := claim9_twist wBook (Character.make wCharCfg)
    twChoice 0 0 0 (by decide) (by decide) (by decide) (by decide) (by decide)
  rw [hgen]
  rfl

/-- C3: `getChoices` returns at most 4 options, the list is empty exactly
when the book is completed, and — whenever the roster has at least two
characters — the menu is exactly two character options followed by the world
and twist options in that order, the two character slots being filled by the
head of the stable sort of the roster by `stageIndex`: the two stage-minimal
characters, with ties resolved in original roster order (any two roster
characters with equal `stageIndex` keep their relative order). -/
theorem claim3_choices (b : LiveBook) :
    (∀ p : LiveBook × List Choice, b.getChoices = some p →
      p.2.length ≤ 4 ∧ (p.2 = [] ↔ b.completed = true)) ∧
    (b.completed = false → WFchars b → 2 ≤ b.characters.length →
      ∃ c1 c2 rest o1 o2,
        b.characters.insertionSort stageLE = c1 :: c2 :: rest ∧
        characterOption c1 = some o1 ∧ characterOption c2 = some o2 ∧
        b.getChoices = some (b, [o1, o2, b.worldOption, b.twistOption]) ∧
        stageLE c1 c2 ∧ (∀ x ∈ rest, stageLE c2 x) ∧
        List.Perm b.characters (c1 :: c2 :: rest) ∧
        (∀ x y : Character, List.Sublist [x, y] b.characters →
          x.stageIndex = y.stageIndex → List.Sublist [x, y] (c1 :: c2 :: rest))) := by
  constructor
  · intro p hp
    unfold LiveBook.getChoices at hp
    split at hp
    · rename_i hcomp
      cases hp
      exact ⟨by simp, by simp [hcomp]⟩
    · rename_i hcomp
      split at hp
      · cases hp
      · rename_i opts hopts
        cases hp
        constructor
        · rw [List.length_take]
          exact Nat.min_le_left _ _
        · constructor
          · intro hempty
            have hlen := congrArg List.length hempty
            simp [List.length_take, List.length_append] at hlen
          · intro habs
            exact absurd habs hcomp
  · intro hcomp hwf hlen2
    have hperm0 : List.Perm (b.characters.insertionSort stageLE) b.characters :=
      List.perm_insertionSort stageLE b.characters
    have hslen : (b.characters.insertionSort stageLE).length = b.characters.length :=
      hperm0.length_eq
    obtain ⟨c1, c2, rest, hshape⟩ :
        ∃ c1 c2 rest, b.characters.insertionSort stageLE = c1 :: c2 :: rest := by
      cases hs : b.characters.insertionSort stageLE with
      | nil =>
        rw [hs] at hslen
        simp at hslen
        omega
      | cons d1 tl =>
        cases tl with
        | nil =>
          rw [hs] at hslen
          simp at hslen
          omega
        | cons d2 rest => exact ⟨d1, d2, rest, rfl⟩
    have hc1mem : c1 ∈ b.characters := by
      have hmem : c1 ∈ b.characters.insertionSort stageLE := by
        rw [hshape]
        exact List.mem_cons_self _ _
      rwa [List.mem_insertionSort] at hmem
    have hc2mem : c2 ∈ b.characters := by
      have hmem : c2 ∈ b.characters.insertionSort stageLE := by
        rw [hshape]
        exact List.mem_cons_of_mem _ (List.mem_cons_self _ _)
      rwa [List.mem_insertionSort] at hmem
    obtain ⟨o1, ho1⟩ : ∃ o1, characterOption c1 = some o1 := by
      unfold characterOption
      rw [List.getElem?_eq_getElem (hwf c1 hc1mem)]
      exact ⟨_, rfl⟩
    obtain ⟨o2, ho2⟩ : ∃ o2, characterOption c2 = some o2 := by
      unfold characterOption
      rw [List.getElem?_eq_getElem (hwf c2 hc2mem)]
      exact ⟨_, rfl⟩
    have hsort := List.sorted_insertionSort stageLE b.characters
    rw [hshape] at hsort
    refine ⟨c1, c2, rest, o1, o2, hshape, ho1, ho2, ?_, ?_, ?_, ?_, ?_⟩
    · unfold LiveBook.getChoices
      rw [if_neg (by simp [hcomp])]
      have htake : (b.characters.insertionSort stageLE).take 2 = [c1, c2] := by
        rw [hshape]
        rfl
      rw [htake, mapOpt_pair ho1 ho2]
      rfl
    · exact (List.sorted_cons.mp hsort).1 c2 (List.mem_cons_self _ _)
    · intro x hx
      exact (List.sorted_cons.mp (List.sorted_cons.mp hsort).2).1 x hx
    · rw [← hshape]
      exact hperm0.symm
    · intro x y hsub heq
      have hxy : stageLE x y := Nat.le_of_eq heq
      have hstab := List.pair_sublist_insertionSort hxy hsub
      rwa [hshape] at hstab

theorem claim3_witness :
    w2Choices.2.length ≤ 4 ∧ (w2Choices.2 = [] ↔ w2Book.completed = true) :=
  (claim3_choices w2Book).1 w2Choices (by decide)
